import Mathlib

/-!
Verification of the task-tracker core (src/task_manager.py, src/storage.py).

The embedding is shallow:
* a Python task dict with its seven fields becomes the `Task` structure
  (the manager only ever builds dicts with all seven keys, so the
  `dict.get` defaults in the source collapse to plain field access);
* Python `datetime.now().isoformat()` is an opaque input string threaded
  into each operation that stamps a time;
* the JSON document on disk is modelled by the `Json` inductive, with
  `json.dump`/`json.load` treated as the inverse pair between that value
  and its text (the text layer itself is abstracted away);
* the possible states of the data file visible to `load_tasks` are the
  four-way `FileState`; exceptions are modelled with `Except`;
* the manager's mutable `self._tasks` plus its `_save` calls become the
  `MState` record threaded through each operation, with `saveCount`
  counting the `_save` calls so that persistence claims are observable.
-/

namespace TaskTracker

/-- One task record, with the seven fields built by
`TaskManager.add_task` (src/task_manager.py lines 36-44). -/
structure Task where
  id : Nat
  title : String
  description : String
  priority : String
  completed : Bool
  created_at : String
  completed_at : Option String
  deriving Repr, DecidableEq

/-- The keys of `TaskManager.PRIORITIES = {"high": 3, "medium": 2, "low": 1}`
(src/task_manager.py line 10). -/
def PRIORITIES : List String := ["high", "medium", "low"]

/-- The value side of the `PRIORITIES` dict as used by the sort key
`self.PRIORITIES.get(..., 2)` (src/task_manager.py line 73): 2 is the
dict-lookup default for unrecognized strings. -/
def priorityValue (p : String) : Int :=
  if p = "high" then 3 else if p = "medium" then 2 else if p = "low" then 1 else 2

/-- ASCII lower-casing of Python `str.lower()`, per character
(the source only ever compares against the ASCII words high/medium/low). -/
def strLower (s : String) : String := ⟨s.data.map Char.toLower⟩

/-- `TaskStorage.get_next_id` (src/storage.py lines 41-45): 1 on an empty
collection, otherwise `max(task.get('id', 0) for task in tasks) + 1`. -/
def get_next_id (tasks : List Task) : Nat :=
  if tasks.isEmpty then 1
  else (tasks.map (fun t => t.id)).foldl max 0 + 1

/-- JSON values, the image of Python `json.load` on the task file. -/
inductive Json where
  | null
  | bool (b : Bool)
  | num (n : Int)
  | str (s : String)
  | arr (elems : List Json)
  | obj (fields : List (String × Json))

/-- The JSON object `json.dump` writes for one task dict: the seven keys of
src/task_manager.py lines 36-44, with `completed_at` either null or a
string. -/
def encodeTask (t : Task) : Json :=
  .obj [("id", .num t.id),
        ("title", .str t.title),
        ("description", .str t.description),
        ("priority", .str t.priority),
        ("completed", .bool t.completed),
        ("created_at", .str t.created_at),
        ("completed_at", match t.completed_at with
          | none => .null
          | some s => .str s)]

/-- The JSON array `json.dump` writes for the whole collection
(src/storage.py line 39). -/
def encodeTasks (ts : List Task) : Json := .arr (ts.map encodeTask)

/-- Dict key lookup on a decoded JSON object. -/
def jLookup (fields : List (String × Json)) (key : String) : Option Json :=
  (fields.find? (fun kv => kv.1 = key)).map (fun kv => kv.2)

/-- Read a JSON number as a non-negative integer id. -/
def decodeNat : Option Json → Option Nat
  | some (.num n) => if n < 0 then none else some n.toNat
  | _ => none

/-- Read a JSON string field. -/
def decodeStr : Option Json → Option String
  | some (.str s) => some s
  | _ => none

/-- Read a JSON boolean field. -/
def decodeBool : Option Json → Option Bool
  | some (.bool b) => some b
  | _ => none

/-- Read a nullable JSON string field (the shape of `completed_at`). -/
def decodeOptStr : Option Json → Option (Option String)
  | some .null => some none
  | some (.str s) => some (some s)
  | _ => none

/-- Recover a task record from its JSON object. -/
def decodeTask : Json → Option Task
  | .obj fields =>
      (decodeNat (jLookup fields "id")).bind fun i =>
      (decodeStr (jLookup fields "title")).bind fun ti =>
      (decodeStr (jLookup fields "description")).bind fun de =>
      (decodeStr (jLookup fields "priority")).bind fun pr =>
      (decodeBool (jLookup fields "completed")).bind fun co =>
      (decodeStr (jLookup fields "created_at")).bind fun cr =>
      (decodeOptStr (jLookup fields "completed_at")).map fun ca =>
      { id := i, title := ti, description := de, priority := pr,
        completed := co, created_at := cr, completed_at := ca }
  | _ => none

/-- Recover the task records of a list of JSON objects, all or nothing. -/
def decodeTaskList : List Json → Option (List Task)
  | [] => some []
  | j :: js =>
      (decodeTask j).bind fun t =>
      (decodeTaskList js).map fun ts => t :: ts

/-- Recover a task collection from the JSON document. -/
def decodeTasks : Json → Option (List Task)
  | .arr elems => decodeTaskList elems
  | _ => none

/-- States of the data file as `load_tasks` can encounter them: missing
(`os.path.exists` false), present but unreadable (`open`/read raises
`IOError`), present and readable but not valid UTF-8 (reading through the
`encoding='utf-8'` text wrapper raises `UnicodeDecodeError`), decodable
text that is not valid JSON (`json.load` raises `JSONDecodeError`), or
holding a document that parses to `j`. -/
inductive FileState where
  | absent
  | unreadable
  | undecodable
  | malformed
  | doc (j : Json)

/-- The exception classes the `try` body of `TaskStorage.load_tasks` can
raise. The `except` clause (src/storage.py line 33) names only
`json.JSONDecodeError` and `IOError`; `UnicodeDecodeError` is a sibling of
`JSONDecodeError` under `ValueError`, an instance of neither named class. -/
inductive PyExc where
  | ioError
  | unicodeDecodeError
  | jsonDecodeError
  deriving Repr, DecidableEq

/-- The body of the `try` block in `TaskStorage.load_tasks`
(src/storage.py lines 31-32): open the file in UTF-8 text mode and
`json.load` it. -/
def openAndParse : FileState → Except PyExc Json
  | .absent => .error .ioError
  | .unreadable => .error .ioError
  | .undecodable => .error .unicodeDecodeError
  | .malformed => .error .jsonDecodeError
  | .doc j => .ok j

/-- `TaskStorage.load_tasks` (src/storage.py lines 25-34): empty list if
the file does not exist, otherwise the parsed document, with
`JSONDecodeError` and `IOError` caught and turned into the empty list;
any other exception — in particular `UnicodeDecodeError` — propagates. -/
def load_tasks : FileState → Except PyExc Json
  | .absent => .ok (.arr [])
  | fs =>
      match openAndParse fs with
      | .ok j => .ok j
      | .error .jsonDecodeError => .ok (.arr [])
      | .error .ioError => .ok (.arr [])
      | .error e => .error e

/-- `TaskStorage.save_tasks` (src/storage.py lines 36-39): overwrite the
data file with the serialization of the whole collection; the resulting
file parses back to exactly that document. -/
def save_tasks (ts : List Task) : FileState := .doc (encodeTasks ts)

/-- Modelled from the spec: the load result §4.1 describes — the persisted
document when one is there, the empty collection when the file is absent,
unreadable, or malformed. -/
def specLoadResult : FileState → Json
  | .doc j => j
  | _ => .arr []

/-- The manager's observable state: the in-memory `self._tasks` plus a
count of the `_save` calls made so far, so that "persists" is visible. -/
structure MState where
  tasks : List Task
  saveCount : Nat
  deriving Repr, DecidableEq

/-- A manager whose lazy load found an empty collection. -/
def emptyState : MState := ⟨[], 0⟩

/-- Priority normalization in `TaskManager.add_task`
(src/task_manager.py lines 31-34): lower-case, and substitute "medium"
when not a key of `PRIORITIES`. -/
def normalizePriority (p : String) : String :=
  let q := strLower p
  if q ∈ PRIORITIES then q else "medium"

/-- `TaskManager.add_task` (src/task_manager.py lines 28-48): build the
task with the next id, append, save, return it. -/
def add_task (st : MState) (title priority description now : String) :
    Task × MState :=
  let t : Task :=
    { id := get_next_id st.tasks, title := title, description := description,
      priority := normalizePriority priority, completed := false,
      created_at := now, completed_at := none }
  (t, { tasks := st.tasks ++ [t], saveCount := st.saveCount + 1 })

/-- `TaskManager.get_task` (src/task_manager.py lines 50-55): first task
with the given id, else nothing. -/
def get_task (tasks : List Task) (task_id : Nat) : Option Task :=
  tasks.find? (fun t => t.id == task_id)

/-- Mutation of the first task carrying `task_id`, as Python's
`get_task`-then-mutate-in-place does: returns the mutated task (if any)
and the collection with that one element replaced. -/
def modifyFirst (f : Task → Task) (task_id : Nat) :
    List Task → Option Task × List Task
  | [] => (none, [])
  | t :: ts =>
      if t.id == task_id then (some (f t), f t :: ts)
      else
        let r := modifyFirst f task_id ts
        (r.1, t :: r.2)

/-- `TaskManager.complete_task` (src/task_manager.py lines 79-86): set
`completed` and stamp `completed_at`, save, return the task; untouched
state when the id is absent. -/
def complete_task (st : MState) (task_id : Nat) (now : String) :
    Option Task × MState :=
  match modifyFirst
      (fun t => { t with completed := true, completed_at := some now })
      task_id st.tasks with
  | (none, _) => (none, st)
  | (some t, ts) => (some t, { tasks := ts, saveCount := st.saveCount + 1 })

/-- `TaskManager.uncomplete_task` (src/task_manager.py lines 88-95): clear
`completed` and `completed_at`, save, return the task. -/
def uncomplete_task (st : MState) (task_id : Nat) : Option Task × MState :=
  match modifyFirst
      (fun t => { t with completed := false, completed_at := none })
      task_id st.tasks with
  | (none, _) => (none, st)
  | (some t, ts) => (some t, { tasks := ts, saveCount := st.saveCount + 1 })

/-- Removal of the first task carrying `task_id`, as the
`enumerate`/`pop` loop of `delete_task` does; nothing when absent. -/
def deleteFirst (task_id : Nat) : List Task → Option (List Task)
  | [] => none
  | t :: ts =>
      if t.id == task_id then some ts
      else (deleteFirst task_id ts).map (fun r => t :: r)

/-- `TaskManager.delete_task` (src/task_manager.py lines 97-104): pop the
first match and save, returning true; false and no save when absent. -/
def delete_task (st : MState) (task_id : Nat) : Bool × MState :=
  match deleteFirst task_id st.tasks with
  | none => (false, st)
  | some ts => (true, { tasks := ts, saveCount := st.saveCount + 1 })

/-- The field updates of `TaskManager.update_task`
(src/task_manager.py lines 113-118): provided title and description
overwrite, a provided priority is applied only when its lower-casing is a
key of `PRIORITIES`. -/
def applyUpdates (title description priority : Option String) (t : Task) :
    Task :=
  let t1 := match title with
    | some s => { t with title := s }
    | none => t
  let t2 := match description with
    | some s => { t1 with description := s }
    | none => t1
  match priority with
  | some p => if strLower p ∈ PRIORITIES then { t2 with priority := strLower p } else t2
  | none => t2

/-- `TaskManager.update_task` (src/task_manager.py lines 106-121): nothing
when the id is absent; otherwise apply the provided fields to the task and
save unconditionally. -/
def update_task (st : MState) (task_id : Nat)
    (title description priority : Option String) : Option Task × MState :=
  match modifyFirst (applyUpdates title description priority) task_id st.tasks with
  | (none, _) => (none, st)
  | (some t, ts) => (some t, { tasks := ts, saveCount := st.saveCount + 1 })

/-- The sort key comparison of `TaskManager.list_tasks`
(src/task_manager.py lines 72-75): ascending in the tuple
`(-PRIORITIES.get(priority, 2), id)`. -/
def taskSortLe (a b : Task) : Bool :=
  decide (priorityValue b.priority < priorityValue a.priority) ||
    (decide (priorityValue a.priority = priorityValue b.priority) &&
      decide (a.id ≤ b.id))

/-- `TaskManager.list_tasks` (src/task_manager.py lines 57-77): status
filter, then priority filter (applied only for a truthy argument whose
lower-casing is a key of `PRIORITIES`), then the stable sort by
`(-priority value, id)`. -/
def list_tasks (tasks : List Task) (status : Option String)
    (priority : Option String) : List Task :=
  let r1 : List Task :=
    if status = some "completed" then tasks.filter (fun t => t.completed)
    else if status = some "pending" then tasks.filter (fun t => !t.completed)
    else tasks
  let r2 : List Task := match priority with
    | some p =>
        if p ≠ "" ∧ strLower p ∈ PRIORITIES then
          r1.filter (fun t => t.priority == strLower p)
        else r1
    | none => r1
  List.mergeSort r2 taskSortLe

/-- The result record of `TaskManager.get_stats`
(src/task_manager.py lines 135-142). -/
structure Stats where
  total : Nat
  completed : Nat
  pending : Nat
  high_priority : Nat
  medium_priority : Nat
  low_priority : Nat
  deriving Repr, DecidableEq

/-- The body of the `by_priority` loop in `get_stats`
(src/task_manager.py lines 130-133): bump the (high, medium, low) counter
of a pending task whose priority is a key of the dict. -/
def statsLoop (acc : Nat × Nat × Nat) (t : Task) : Nat × Nat × Nat :=
  if t.priority ∈ PRIORITIES ∧ t.completed = false then
    if t.priority = "high" then (acc.1 + 1, acc.2.1, acc.2.2)
    else if t.priority = "medium" then (acc.1, acc.2.1 + 1, acc.2.2)
    else (acc.1, acc.2.1, acc.2.2 + 1)
  else acc

/-- `TaskManager.get_stats` (src/task_manager.py lines 123-142). -/
def get_stats (tasks : List Task) : Stats :=
  let total := tasks.length
  let completed := tasks.countP (fun t => t.completed)
  let bp := tasks.foldl statsLoop (0, 0, 0)
  { total := total, completed := completed, pending := total - completed,
    high_priority := bp.1, medium_priority := bp.2.1,
    low_priority := bp.2.2 }

/-- `TaskManager.clear_completed` (src/task_manager.py lines 144-151):
keep the non-completed tasks, return how many were dropped, save only
when that count is positive. -/
def clear_completed (st : MState) : Nat × MState :=
  let original_count := st.tasks.length
  let kept := st.tasks.filter (fun t => !t.completed)
  let removed := original_count - kept.length
  (removed,
    { tasks := kept,
      saveCount := if removed > 0 then st.saveCount + 1 else st.saveCount })

/-- Manager states reachable from an empty collection through the mutating
operations (the read-only ones — `get_task`, `list_tasks`, `get_stats` —
do not touch the state). -/
inductive Reachable : MState → Prop where
  | empty : Reachable emptyState
  | add (st : MState) (title priority description now : String) :
      Reachable st → Reachable (add_task st title priority description now).2
  | complete (st : MState) (task_id : Nat) (now : String) :
      Reachable st → Reachable (complete_task st task_id now).2
  | uncomplete (st : MState) (task_id : Nat) :
      Reachable st → Reachable (uncomplete_task st task_id).2
  | update (st : MState) (task_id : Nat) (title description priority : Option String) :
      Reachable st → Reachable (update_task st task_id title description priority).2
  | delete (st : MState) (task_id : Nat) :
      Reachable st → Reachable (delete_task st task_id).2
  | clear (st : MState) :
      Reachable st → Reachable (clear_completed st).2

/-- One manager call, for reasoning about call sequences. -/
inductive Op where
  | add (title priority description now : String)
  | complete (task_id : Nat) (now : String)
  | uncomplete (task_id : Nat)
  | update (task_id : Nat) (title description priority : Option String)
  | delete (task_id : Nat)
  | clear
  deriving Repr, DecidableEq

/-- State after one call, results discarded. -/
def applyOp (st : MState) : Op → MState
  | .add t p d n => (add_task st t p d n).2
  | .complete i n => (complete_task st i n).2
  | .uncomplete i => (uncomplete_task st i).2
  | .update i t d p => (update_task st i t d p).2
  | .delete i => (delete_task st i).2
  | .clear => (clear_completed st).2

/-- The ids handed out by the `add_task` calls of a call sequence, in
order. -/
def assignedIds (st : MState) : List Op → List Nat
  | [] => []
  | .add t p d n :: ops =>
      (add_task st t p d n).1.id :: assignedIds (add_task st t p d n).2 ops
  | op :: ops => assignedIds (applyOp st op) ops

/-- Whether a call removes tasks from the collection. -/
def Op.removesTasks : Op → Bool
  | .delete _ => true
  | .clear => true
  | _ => false

/-- The largest id in a collection, 0 when empty: the quantity the
`max(...)` in `get_next_id` computes. -/
def maxIdOf (ts : List Task) : Nat := (ts.map (fun t => t.id)).foldl max 0

/-- The per-task invariant of §3: `completed_at` is non-null exactly when
`completed` is true. -/
def TaskCompOK (t : Task) : Prop := t.completed = true ↔ t.completed_at ≠ none

/-- The §3 completion invariant over a whole manager state. -/
def compInv (st : MState) : Prop := ∀ t ∈ st.tasks, TaskCompOK t

/-- Every stored priority is one of the three recognized strings. -/
def prioInv (st : MState) : Prop := ∀ t ∈ st.tasks, t.priority ∈ PRIORITIES

/-- Modelled from the spec: the status filter of §4.2 `listTasks` — keep
completed, keep not-completed, or no filter. -/
def statusKeep (status : Option String) (t : Task) : Bool :=
  if status = some "completed" then t.completed
  else if status = some "pending" then !t.completed
  else true

/-- Modelled from the spec: the priority filter of §4.2 `listTasks` —
case-insensitive exact match, ignored when the argument is empty or not a
recognized value. -/
def prioKeep (priority : Option String) (t : Task) : Bool :=
  match priority with
  | some p =>
      if p ≠ "" ∧ strLower p ∈ PRIORITIES then t.priority == strLower p
      else true
  | none => true

/-- Modelled from the spec: status filter, then priority filter. -/
def specKeep (status priority : Option String) (t : Task) : Bool :=
  statusKeep status t && prioKeep priority t

/-- Modelled from the spec: the numeric priority of the §4.2 sort —
high = 3, medium = 2, low = 1 (an unrecognized stored value sorts as
medium, the dict-lookup default the spec leaves implicit). -/
def specPriorityNum (p : String) : Int :=
  if p = "high" then 3 else if p = "medium" then 2 else if p = "low" then 1 else 2

/-- Modelled from the spec: the §4.2 output order — priority descending,
ties broken by ascending id. -/
def specOrder (a b : Task) : Prop :=
  specPriorityNum b.priority < specPriorityNum a.priority ∨
    (specPriorityNum a.priority = specPriorityNum b.priority ∧ a.id ≤ b.id)

/-! Lemmas about the storage layer. -/

lemma decodeTask_encodeTask (t : Task) : decodeTask (encodeTask t) = some t := by
  cases t with
  | mk i ti de pr co cr ca =>
    cases ca <;>
      simp [decodeTask, encodeTask, jLookup, decodeNat, decodeStr, decodeBool,
        decodeOptStr, List.find?, show ¬((i : Int) < 0) from by omega]

lemma decodeTasks_encodeTasks (ts : List Task) :
    decodeTasks (encodeTasks ts) = some ts := by
  induction ts with
  | nil => rfl
  | cons t ts ih =>
    simp only [encodeTasks, decodeTasks, List.map_cons, decodeTaskList,
      decodeTask_encodeTask]
    simp only [encodeTasks, decodeTasks] at ih
    simp [ih]

/-- C2. The recovery of `load_tasks` is incomplete: on a readable file of
invalid UTF-8 bytes the uncaught `UnicodeDecodeError` propagates instead
of degrading to the empty collection, while every other file state does
return `ok` with the value the spec describes — the parsed document when
one is there, the empty collection when the file is absent, unreadable,
or not valid JSON. -/
theorem load_tasks_uncaught_decode_error :
    load_tasks .undecodable = Except.error PyExc.unicodeDecodeError ∧
    load_tasks .absent = Except.ok (specLoadResult .absent) ∧
    load_tasks .unreadable = Except.ok (specLoadResult .unreadable) ∧
    load_tasks .malformed = Except.ok (specLoadResult .malformed) ∧
    ∀ j, load_tasks (.doc j) = Except.ok (specLoadResult (.doc j)) :=
  ⟨rfl, rfl, rfl, rfl, fun _ => rfl⟩

/-- C8. Round-trip: saving a task collection leaves the data file holding
its serialization, loading that file succeeds with exactly that document,
and decoding the document recovers the original collection. -/
theorem save_load_roundtrip (ts : List Task) :
    load_tasks (save_tasks ts) = Except.ok (encodeTasks ts) ∧
    decodeTasks (encodeTasks ts) = some ts :=
  ⟨rfl, decodeTasks_encodeTasks ts⟩

/-! Lemmas about first-match mutation and removal. -/

lemma modifyFirst_fst (f : Task → Task) (task_id : Nat) (ts : List Task) :
    (modifyFirst f task_id ts).1 =
      (ts.find? (fun t => t.id == task_id)).map f := by
  induction ts with
  | nil => rfl
  | cons t ts ih =>
    by_cases h : (t.id == task_id) = true
    · simp [modifyFirst, h, List.find?_cons_of_pos _ h]
    · simp only [Bool.not_eq_true] at h
      simp [modifyFirst, h, List.find?_cons_of_neg, ih]

lemma modifyFirst_of_absent (f : Task → Task) (task_id : Nat) (ts : List Task)
    (h : ∀ t ∈ ts, t.id ≠ task_id) :
    modifyFirst f task_id ts = (none, ts) := by
  induction ts with
  | nil => rfl
  | cons t ts ih =>
    have ht : (t.id == task_id) = false := by
      simp [h t (List.mem_cons_self t ts)]
    simp [modifyFirst, ht, ih fun t' ht' => h t' (List.mem_cons_of_mem t ht')]

lemma modifyFirst_mem (f : Task → Task) (task_id : Nat) (ts : List Task) :
    ∀ t' ∈ (modifyFirst f task_id ts).2,
      t' ∈ ts ∨ ∃ t, t ∈ ts ∧ t' = f t := by
  induction ts with
  | nil => simp [modifyFirst]
  | cons t ts ih =>
    by_cases h : (t.id == task_id) = true
    · intro t' ht'
      simp only [modifyFirst, h, if_true, List.mem_cons] at ht'
      rcases ht' with h1 | h2
      · exact Or.inr ⟨t, List.mem_cons_self t ts, h1⟩
      · exact Or.inl (List.mem_cons_of_mem t h2)
    · intro t' ht'
      simp only [modifyFirst, h, if_false, Bool.false_eq_true, List.mem_cons] at ht'
      rcases ht' with h1 | h2
      · exact Or.inl (h1 ▸ List.mem_cons_self t ts)
      · rcases ih t' h2 with h3 | ⟨u, hu, hu'⟩
        · exact Or.inl (List.mem_cons_of_mem t h3)
        · exact Or.inr ⟨u, List.mem_cons_of_mem t hu, hu'⟩

lemma modifyFirst_map_id (f : Task → Task) (task_id : Nat) (ts : List Task)
    (hf : ∀ t, (f t).id = t.id) :
    ((modifyFirst f task_id ts).2).map (fun t => t.id) =
      ts.map (fun t => t.id) := by
  induction ts with
  | nil => rfl
  | cons t ts ih =>
    by_cases h : (t.id == task_id) = true
    · simp [modifyFirst, h, hf]
    · simp [modifyFirst, h, ih]

lemma deleteFirst_of_absent (task_id : Nat) (ts : List Task)
    (h : ∀ t ∈ ts, t.id ≠ task_id) :
    deleteFirst task_id ts = none := by
  induction ts with
  | nil => rfl
  | cons t ts ih =>
    have ht : (t.id == task_id) = false := by
      simp [h t (List.mem_cons_self t ts)]
    simp [deleteFirst, ht, ih fun t' ht' => h t' (List.mem_cons_of_mem t ht')]

lemma deleteFirst_mem (task_id : Nat) (ts ts' : List Task)
    (h : deleteFirst task_id ts = some ts') : ∀ t' ∈ ts', t' ∈ ts := by
  induction ts generalizing ts' with
  | nil => simp [deleteFirst] at h
  | cons t ts ih =>
    by_cases ht : (t.id == task_id) = true
    · simp only [deleteFirst, ht, if_true, Option.some.injEq] at h
      exact fun t' ht' => List.mem_cons_of_mem t (h ▸ ht')
    · simp only [deleteFirst, ht, Bool.false_eq_true, if_false,
        Option.map_eq_some'] at h
      rcases h with ⟨r, hr, hr'⟩
      subst hr'
      intro t' ht'
      rcases List.mem_cons.mp ht' with h1 | h2
      · exact h1 ▸ List.mem_cons_self t ts
      · exact List.mem_cons_of_mem t (ih r hr t' h2)

/-- C9. A lookup miss is a normal result: on an id no task carries,
`complete_task`, `uncomplete_task` and `update_task` return nothing,
`delete_task` returns false, and all four leave the whole manager state —
collection and save count alike — untouched. -/
theorem missing_id_is_noop (st : MState) (task_id : Nat) (now : String)
    (tOpt dOpt pOpt : Option String)
    (h : ∀ t ∈ st.tasks, t.id ≠ task_id) :
    complete_task st task_id now = (none, st) ∧
    uncomplete_task st task_id = (none, st) ∧
    update_task st task_id tOpt dOpt pOpt = (none, st) ∧
    delete_task st task_id = (false, st) := by
  refine ⟨?_, ?_, ?_, ?_⟩
  · rw [complete_task, modifyFirst_of_absent _ _ _ h]
  · rw [uncomplete_task, modifyFirst_of_absent _ _ _ h]
  · rw [update_task, modifyFirst_of_absent _ _ _ h]
  · rw [delete_task, deleteFirst_of_absent _ _ h]

/-- Witness for C9 at a one-task collection and the absent id 2. -/
theorem missing_id_is_noop_witness :
    (∀ t ∈ (⟨[⟨1, "a", "", "high", false, "c", none⟩], 0⟩ : MState).tasks,
        t.id ≠ 2) ∧
    complete_task ⟨[⟨1, "a", "", "high", false, "c", none⟩], 0⟩ 2 "n" =
      (none, ⟨[⟨1, "a", "", "high", false, "c", none⟩], 0⟩) ∧
    uncomplete_task ⟨[⟨1, "a", "", "high", false, "c", none⟩], 0⟩ 2 =
      (none, ⟨[⟨1, "a", "", "high", false, "c", none⟩], 0⟩) ∧
    update_task ⟨[⟨1, "a", "", "high", false, "c", none⟩], 0⟩ 2
        (some "x") none none =
      (none, ⟨[⟨1, "a", "", "high", false, "c", none⟩], 0⟩) ∧
    delete_task ⟨[⟨1, "a", "", "high", false, "c", none⟩], 0⟩ 2 =
      (false, ⟨[⟨1, "a", "", "high", false, "c", none⟩], 0⟩) :=
  ⟨by decide,
    (missing_id_is_noop _ 2 "n" (some "x") none none (by decide)).1,
    (missing_id_is_noop _ 2 "n" (some "x") none none (by decide)).2.1,
    (missing_id_is_noop _ 2 "n" (some "x") none none (by decide)).2.2.1,
    (missing_id_is_noop _ 2 "n" (some "x") none none (by decide)).2.2.2⟩

/-! Lemmas about `update_task`. -/

lemma update_task_found (st : MState) (task_id : Nat) (t0 : Task)
    (tOpt dOpt pOpt : Option String)
    (hfound : get_task st.tasks task_id = some t0) :
    (update_task st task_id tOpt dOpt pOpt).1 =
      some (applyUpdates tOpt dOpt pOpt t0) ∧
    (update_task st task_id tOpt dOpt pOpt).2.saveCount = st.saveCount + 1 := by
  rcases hm : modifyFirst (applyUpdates tOpt dOpt pOpt) task_id st.tasks
    with ⟨r, ts'⟩
  have h1 : r = some (applyUpdates tOpt dOpt pOpt t0) := by
    have h2 := modifyFirst_fst (applyUpdates tOpt dOpt pOpt) task_id st.tasks
    rw [hm] at h2
    rw [get_task] at hfound
    rw [hfound] at h2
    simpa using h2
  subst h1
  simp [update_task, hm]

lemma applyUpdates_bad_priority (tOpt dOpt : Option String) (p : String)
    (t : Task) (hp : strLower p ∉ PRIORITIES) :
    applyUpdates tOpt dOpt (some p) t =
      { t with title := tOpt.getD t.title,
               description := dOpt.getD t.description } := by
  cases tOpt <;> cases dOpt <;> simp [applyUpdates, hp]

lemma applyUpdates_none (t : Task) : applyUpdates none none none t = t := rfl

/-- C4. A priority string whose lower-casing is not high/medium/low is
coerced to "medium" by `add_task` but silently ignored by `update_task`
(provided title and description still land), and `update_task` on an
existing id always saves — here even when every field argument is
omitted. -/
theorem invalid_priority_semantics (st : MState) (task_id : Nat) (t0 : Task)
    (p title description now : String) (tOpt dOpt : Option String)
    (hp : strLower p ∉ PRIORITIES)
    (hfound : get_task st.tasks task_id = some t0) :
    (add_task st title p description now).1.priority = "medium" ∧
    (update_task st task_id tOpt dOpt (some p)).1 =
      some { t0 with title := tOpt.getD t0.title,
                     description := dOpt.getD t0.description } ∧
    (update_task st task_id tOpt dOpt (some p)).2.saveCount =
      st.saveCount + 1 ∧
    (update_task st task_id none none none).1 = some t0 ∧
    (update_task st task_id none none none).2.saveCount = st.saveCount + 1 := by
  refine ⟨by simp [add_task, normalizePriority, hp], ?_, ?_, ?_, ?_⟩
  · rw [(update_task_found st task_id t0 tOpt dOpt (some p) hfound).1,
      applyUpdates_bad_priority tOpt dOpt p t0 hp]
  · exact (update_task_found st task_id t0 tOpt dOpt (some p) hfound).2
  · rw [(update_task_found st task_id t0 none none none hfound).1,
      applyUpdates_none]
  · exact (update_task_found st task_id t0 none none none hfound).2

/-- Witness for C4 on a one-task collection, the unrecognized priority
"Bogus", and a provided title. -/
theorem invalid_priority_semantics_witness :
    strLower "Bogus" ∉ PRIORITIES ∧
    get_task [⟨1, "a", "d0", "low", false, "c", none⟩] 1 =
      some ⟨1, "a", "d0", "low", false, "c", none⟩ ∧
    ((add_task ⟨[⟨1, "a", "d0", "low", false, "c", none⟩], 4⟩
        "t" "Bogus" "d" "n").1.priority = "medium" ∧
      (update_task ⟨[⟨1, "a", "d0", "low", false, "c", none⟩], 4⟩ 1
          (some "nt") none (some "Bogus")).1 =
        some { (⟨1, "a", "d0", "low", false, "c", none⟩ : Task) with
                 title := (some "nt").getD "a",
                 description := (none : Option String).getD "d0" } ∧
      (update_task ⟨[⟨1, "a", "d0", "low", false, "c", none⟩], 4⟩ 1
          (some "nt") none (some "Bogus")).2.saveCount = 4 + 1 ∧
      (update_task ⟨[⟨1, "a", "d0", "low", false, "c", none⟩], 4⟩ 1
          none none none).1 = some ⟨1, "a", "d0", "low", false, "c", none⟩ ∧
      (update_task ⟨[⟨1, "a", "d0", "low", false, "c", none⟩], 4⟩ 1
          none none none).2.saveCount = 4 + 1) :=
  ⟨by decide, by decide,
    invalid_priority_semantics ⟨[⟨1, "a", "d0", "low", false, "c", none⟩], 4⟩ 1
      ⟨1, "a", "d0", "low", false, "c", none⟩ "Bogus" "t" "d" "n"
      (some "nt") none (by decide) (by decide)⟩

/-! Lemmas about `clear_completed`. -/

lemma clear_count (ts : List Task) :
    ts.length - (ts.filter (fun t => !t.completed)).length =
      ts.countP (fun t => t.completed) := by
  induction ts with
  | nil => rfl
  | cons t ts ih =>
    have hle : (ts.filter (fun t => !t.completed)).length ≤ ts.length :=
      List.length_filter_le _ _
    cases hc : t.completed <;>
      simp only [List.filter_cons, hc, List.countP_cons, List.length_cons,
        Bool.not_true, Bool.not_false, if_true, if_false, Bool.false_eq_true,
        Bool.true_eq_false, decide_eq_true_eq] <;>
      omega

/-- C7. `clear_completed` keeps exactly the non-completed tasks in their
original order, returns how many completed tasks it dropped, bumps the
save count only when that number is positive, and a second call right
after removes nothing and changes nothing. -/
theorem clear_completed_spec (st : MState) :
    (clear_completed st).2.tasks = st.tasks.filter (fun t => !t.completed) ∧
    (clear_completed st).1 = st.tasks.countP (fun t => t.completed) ∧
    (clear_completed st).2.saveCount =
      (if 0 < (clear_completed st).1 then st.saveCount + 1
       else st.saveCount) ∧
    (clear_completed (clear_completed st).2).1 = 0 ∧
    (clear_completed (clear_completed st).2).2 = (clear_completed st).2 := by
  have hidem : (st.tasks.filter (fun t => !t.completed)).filter
      (fun t => !t.completed) = st.tasks.filter (fun t => !t.completed) := by
    rw [List.filter_filter]
    simp
  refine ⟨rfl, clear_count st.tasks, rfl, ?_, ?_⟩
  · simp only [clear_completed, hidem]
    exact Nat.sub_self _
  · simp only [clear_completed, hidem, Nat.sub_self]
    simp

/-! Lemmas about `get_stats`. -/

lemma statsLoop_foldl (ts : List Task) (acc : Nat × Nat × Nat) :
    ts.foldl statsLoop acc =
      (acc.1 + ts.countP (fun t => !t.completed && t.priority == "high"),
       acc.2.1 + ts.countP (fun t => !t.completed && t.priority == "medium"),
       acc.2.2 + ts.countP (fun t => !t.completed && t.priority == "low")) := by
  induction ts generalizing acc with
  | nil => simp
  | cons t ts ih =>
    rw [List.foldl_cons, ih]
    simp only [List.countP_cons]
    unfold statsLoop
    by_cases h1 : t.priority = "high" <;> by_cases h2 : t.priority = "medium" <;>
      by_cases h3 : t.priority = "low" <;> cases hc : t.completed <;>
      simp_all [PRIORITIES, Prod.ext_iff] <;> omega

/-- C6. `get_stats` reports the collection size, the number of completed
tasks, pending as their difference, and per-priority counts over the
non-completed tasks only; on the spec's three-task example it yields
(3, 1, 2, 1, 0, 1). -/
theorem get_stats_spec :
    (∀ tasks : List Task,
      (get_stats tasks).total = tasks.length ∧
      (get_stats tasks).completed = tasks.countP (fun t => t.completed) ∧
      (get_stats tasks).pending =
        tasks.length - tasks.countP (fun t => t.completed) ∧
      (get_stats tasks).high_priority =
        tasks.countP (fun t => !t.completed && t.priority == "high") ∧
      (get_stats tasks).medium_priority =
        tasks.countP (fun t => !t.completed && t.priority == "medium") ∧
      (get_stats tasks).low_priority =
        tasks.countP (fun t => !t.completed && t.priority == "low")) ∧
    get_stats [⟨1, "a", "", "high", false, "c", none⟩,
               ⟨2, "b", "", "high", true, "c", some "d"⟩,
               ⟨3, "e", "", "low", false, "c", none⟩] =
      ⟨3, 1, 2, 1, 0, 1⟩ := by
  refine ⟨fun tasks => ?_, by decide⟩
  simp [get_stats, statsLoop_foldl]

/-! Lemmas about `list_tasks`. -/

lemma statusFilter_eq (tasks : List Task) (status : Option String) :
    (if status = some "completed" then tasks.filter (fun t => t.completed)
     else if status = some "pending" then tasks.filter (fun t => !t.completed)
     else tasks) = tasks.filter (statusKeep status) := by
  split_ifs with h1 h2
  · exact List.filter_congr fun t _ => by simp [statusKeep, h1]
  · exact List.filter_congr fun t _ => by simp [statusKeep, h1, h2]
  · exact ((List.filter_congr fun t _ =>
      (by simp [statusKeep, h1, h2] : statusKeep status t = true)).trans
        (List.filter_true tasks)).symm

lemma prioFilter_eq (l : List Task) (priority : Option String) :
    (match priority with
     | some p =>
         if p ≠ "" ∧ strLower p ∈ PRIORITIES then
           l.filter (fun t => t.priority == strLower p)
         else l
     | none => l) = l.filter (prioKeep priority) := by
  cases priority with
  | none =>
    exact ((List.filter_congr fun t _ =>
      (rfl : prioKeep none t = true)).trans (List.filter_true l)).symm
  | some p =>
    by_cases hp : p ≠ "" ∧ strLower p ∈ PRIORITIES
    · simp only [if_pos hp]
      exact List.filter_congr fun t _ => by simp [prioKeep, hp]
    · simp only [if_neg hp]
      exact ((List.filter_congr fun t _ =>
        (by simp [prioKeep, hp] : prioKeep (some p) t = true)).trans
          (List.filter_true l)).symm

lemma list_tasks_eq (tasks : List Task) (status priority : Option String) :
    list_tasks tasks status priority =
      (tasks.filter (specKeep status priority)).mergeSort taskSortLe := by
  simp only [list_tasks]
  rw [statusFilter_eq, prioFilter_eq, List.filter_filter]
  congr 1
  apply List.filter_congr
  intro t _
  simp [specKeep, Bool.and_comm]

lemma taskSortLe_trans (a b c : Task) (h1 : taskSortLe a b = true)
    (h2 : taskSortLe b c = true) : taskSortLe a c = true := by
  simp only [taskSortLe, Bool.or_eq_true, Bool.and_eq_true,
    decide_eq_true_eq] at h1 h2 ⊢
  omega

lemma taskSortLe_total (a b : Task) :
    (taskSortLe a b || taskSortLe b a) = true := by
  simp only [taskSortLe, Bool.or_eq_true, Bool.and_eq_true,
    decide_eq_true_eq]
  omega

lemma taskSortLe_specOrder (a b : Task) (h : taskSortLe a b = true) :
    specOrder a b := by
  have hv : ∀ p, specPriorityNum p = priorityValue p := fun p => rfl
  simp only [taskSortLe, Bool.or_eq_true, Bool.and_eq_true,
    decide_eq_true_eq] at h
  simp only [specOrder, hv]
  omega

/-- C3. `list_tasks` returns a permutation of the collection restricted by
the status filter and then the priority filter, arranged in the spec's
order — priority descending with ties broken by ascending id — and on
the spec's example `[{id 1, low}, {id 2, high}, {id 3, high}]` with no
filters it returns the ids in the order 2, 3, 1. -/
theorem list_tasks_spec :
    (∀ (tasks : List Task) (status priority : Option String),
      (list_tasks tasks status priority).Perm
        (tasks.filter (specKeep status priority)) ∧
      List.Pairwise specOrder (list_tasks tasks status priority)) ∧
    (list_tasks [⟨1, "a", "", "low", false, "c", none⟩,
                 ⟨2, "b", "", "high", false, "c", none⟩,
                 ⟨3, "e", "", "high", false, "c", none⟩] none none).map
        (fun t => t.id) = [2, 3, 1] := by
  refine ⟨fun tasks status priority => ⟨?_, ?_⟩, ?_⟩
  · rw [list_tasks_eq]
    exact List.mergeSort_perm _ _
  · rw [list_tasks_eq]
    exact (List.sorted_mergeSort taskSortLe_trans taskSortLe_total
      (tasks.filter (specKeep status priority))).imp
      (fun h => taskSortLe_specOrder _ _ h)
  · simp [list_tasks, List.mergeSort, taskSortLe, priorityValue]

/-! Field-preservation lemmas for `applyUpdates`, and id bookkeeping for
the sequence-of-calls reasoning. -/

lemma applyUpdates_id (a b c : Option String) (t : Task) :
    (applyUpdates a b c t).id = t.id := by
  cases a <;> cases b <;> cases c <;> simp [applyUpdates] <;> split_ifs <;> rfl

lemma applyUpdates_completed (a b c : Option String) (t : Task) :
    (applyUpdates a b c t).completed = t.completed := by
  cases a <;> cases b <;> cases c <;> simp [applyUpdates] <;> split_ifs <;> rfl

lemma applyUpdates_completed_at (a b c : Option String) (t : Task) :
    (applyUpdates a b c t).completed_at = t.completed_at := by
  cases a <;> cases b <;> cases c <;> simp [applyUpdates] <;> split_ifs <;> rfl

lemma applyUpdates_priority (a b c : Option String) (t : Task) :
    (applyUpdates a b c t).priority = t.priority ∨
      (applyUpdates a b c t).priority ∈ PRIORITIES := by
  cases c with
  | none =>
    left
    cases a <;> cases b <;> rfl
  | some p =>
    by_cases hp : strLower p ∈ PRIORITIES
    · right
      cases a <;> cases b <;> simp [applyUpdates, hp]
    · left
      cases a <;> cases b <;> simp [applyUpdates, hp]

lemma get_next_id_eq (ts : List Task) : get_next_id ts = maxIdOf ts + 1 := by
  cases ts <;> rfl

lemma maxIdOf_append (ts : List Task) (t : Task) :
    maxIdOf (ts ++ [t]) = max (maxIdOf ts) t.id := by
  simp [maxIdOf, List.foldl_append]

lemma complete_task_map_id (st : MState) (i : Nat) (n : String) :
    ((complete_task st i n).2).tasks.map (fun t => t.id) =
      st.tasks.map (fun t => t.id) := by
  rcases hm : modifyFirst
      (fun t => { t with completed := true, completed_at := some n })
      i st.tasks with ⟨r, ts'⟩
  have h2 : ts'.map (fun t => t.id) = st.tasks.map (fun t => t.id) := by
    have h3 := modifyFirst_map_id
      (fun t => { t with completed := true, completed_at := some n })
      i st.tasks (fun t => rfl)
    rw [hm] at h3
    exact h3
  cases r <;> simp [complete_task, hm, h2]

lemma uncomplete_task_map_id (st : MState) (i : Nat) :
    ((uncomplete_task st i).2).tasks.map (fun t => t.id) =
      st.tasks.map (fun t => t.id) := by
  rcases hm : modifyFirst
      (fun t => { t with completed := false, completed_at := none })
      i st.tasks with ⟨r, ts'⟩
  have h2 : ts'.map (fun t => t.id) = st.tasks.map (fun t => t.id) := by
    have h3 := modifyFirst_map_id
      (fun t => { t with completed := false, completed_at := none })
      i st.tasks (fun t => rfl)
    rw [hm] at h3
    exact h3
  cases r <;> simp [uncomplete_task, hm, h2]

lemma update_task_map_id (st : MState) (i : Nat) (a b c : Option String) :
    ((update_task st i a b c).2).tasks.map (fun t => t.id) =
      st.tasks.map (fun t => t.id) := by
  rcases hm : modifyFirst (applyUpdates a b c) i st.tasks with ⟨r, ts'⟩
  have h2 : ts'.map (fun t => t.id) = st.tasks.map (fun t => t.id) := by
    have h3 := modifyFirst_map_id (applyUpdates a b c) i st.tasks
      (applyUpdates_id a b c)
    rw [hm] at h3
    exact h3
  cases r <;> simp [update_task, hm, h2]

lemma assignedIds_spec (ops : List Op) :
    ∀ st : MState, (∀ op ∈ ops, op.removesTasks = false) →
      List.Pairwise (fun a b => a < b) (assignedIds st ops) ∧
      ∀ a ∈ assignedIds st ops, maxIdOf st.tasks < a := by
  induction ops with
  | nil => exact fun st _ => ⟨List.Pairwise.nil, by simp [assignedIds]⟩
  | cons op ops ih =>
    intro st h
    have hops : ∀ o ∈ ops, o.removesTasks = false :=
      fun o ho => h o (List.mem_cons_of_mem _ ho)
    cases op with
    | add ti pr de no =>
      have hid : (add_task st ti pr de no).1.id = maxIdOf st.tasks + 1 := by
        simp [add_task, get_next_id_eq]
      have hmax : maxIdOf (add_task st ti pr de no).2.tasks =
          maxIdOf st.tasks + 1 := by
        have h4 : (add_task st ti pr de no).2.tasks =
            st.tasks ++ [(add_task st ti pr de no).1] := rfl
        rw [h4, maxIdOf_append, hid]
        omega
      rcases ih (add_task st ti pr de no).2 hops with ⟨hp, hb⟩
      have heq : assignedIds st (Op.add ti pr de no :: ops) =
          (add_task st ti pr de no).1.id ::
            assignedIds (add_task st ti pr de no).2 ops := rfl
      constructor
      · rw [heq]
        refine List.Pairwise.cons (fun a ha => ?_) hp
        have h5 := hb a ha
        rw [hmax] at h5
        rw [hid]
        omega
      · intro a ha
        rw [heq, List.mem_cons] at ha
        rcases ha with h6 | h7
        · rw [h6, hid]
          omega
        · have h5 := hb a h7
          rw [hmax] at h5
          omega
    | complete i n =>
      have hmax : maxIdOf (complete_task st i n).2.tasks = maxIdOf st.tasks := by
        rw [maxIdOf, complete_task_map_id, maxIdOf]
      rcases ih (complete_task st i n).2 hops with ⟨hp, hb⟩
      exact ⟨hp, fun a ha => hmax ▸ hb a ha⟩
    | uncomplete i =>
      have hmax : maxIdOf (uncomplete_task st i).2.tasks = maxIdOf st.tasks := by
        rw [maxIdOf, uncomplete_task_map_id, maxIdOf]
      rcases ih (uncomplete_task st i).2 hops with ⟨hp, hb⟩
      exact ⟨hp, fun a ha => hmax ▸ hb a ha⟩
    | update i a b c =>
      have hmax : maxIdOf (update_task st i a b c).2.tasks = maxIdOf st.tasks := by
        rw [maxIdOf, update_task_map_id, maxIdOf]
      rcases ih (update_task st i a b c).2 hops with ⟨hp, hb⟩
      exact ⟨hp, fun a ha => hmax ▸ hb a ha⟩
    | delete i => exact absurd (h _ (List.mem_cons_self _ _)) (by simp [Op.removesTasks])
    | clear => exact absurd (h _ (List.mem_cons_self _ _)) (by simp [Op.removesTasks])

/-- C1 counterexample. With a delete interleaved, assigned ids repeat: the
call sequence add, add, delete 2, add hands out the ids 1, 2, 2 — neither
strictly increasing nor free of reuse, because `get_next_id` is
max-plus-one over the ids still present. -/
theorem add_ids_reused_after_delete :
    assignedIds emptyState
      [Op.add "a" "medium" "" "t1", Op.add "b" "medium" "" "t2",
       Op.delete 2, Op.add "c" "medium" "" "t3"] = [1, 2, 2] ∧
    ¬ List.Pairwise (fun a b => a < b)
      (assignedIds emptyState
        [Op.add "a" "medium" "" "t1", Op.add "b" "medium" "" "t2",
         Op.delete 2, Op.add "c" "medium" "" "t3"]) ∧
    ¬ (assignedIds emptyState
        [Op.add "a" "medium" "" "t1", Op.add "b" "medium" "" "t2",
         Op.delete 2, Op.add "c" "medium" "" "t3"]).Nodup := by
  refine ⟨by decide, by decide, by decide⟩

/-- C1 amended. As long as no `delete_task` or `clear_completed` call
intervenes, the ids handed out by successive `add_task` calls from an
empty collection are strictly increasing and never repeat (each one also
exceeds every id then in the collection). -/
theorem add_ids_increase_without_removal (ops : List Op)
    (h : ∀ op ∈ ops, op.removesTasks = false) :
    List.Pairwise (fun a b => a < b) (assignedIds emptyState ops) ∧
    (assignedIds emptyState ops).Nodup := by
  rcases assignedIds_spec ops emptyState h with ⟨hp, _⟩
  exact ⟨hp, hp.imp Nat.ne_of_lt⟩

/-- Witness for the amended C1 on the removal-free sequence
add, complete 1, add, update 1. -/
theorem add_ids_increase_without_removal_witness :
    (∀ op ∈ [Op.add "a" "high" "" "t1", Op.complete 1 "t2",
             Op.add "b" "low" "" "t3", Op.update 1 (some "x") none none],
       op.removesTasks = false) ∧
    (List.Pairwise (fun a b => a < b)
      (assignedIds emptyState
        [Op.add "a" "high" "" "t1", Op.complete 1 "t2",
         Op.add "b" "low" "" "t3", Op.update 1 (some "x") none none]) ∧
     (assignedIds emptyState
        [Op.add "a" "high" "" "t1", Op.complete 1 "t2",
         Op.add "b" "low" "" "t3", Op.update 1 (some "x") none none]).Nodup) :=
  ⟨by decide, add_ids_increase_without_removal _ (by decide)⟩

/-! Preservation of the completion invariant. -/

lemma compInv_add (st : MState) (ti pr de no : String) (h : compInv st) :
    compInv (add_task st ti pr de no).2 := by
  intro t ht
  have h4 : (add_task st ti pr de no).2.tasks =
      st.tasks ++ [(add_task st ti pr de no).1] := rfl
  rw [h4, List.mem_append, List.mem_singleton] at ht
  rcases ht with h1 | h2
  · exact h t h1
  · subst h2
    simp [add_task, TaskCompOK]

lemma compInv_complete (st : MState) (i : Nat) (n : String) (h : compInv st) :
    compInv (complete_task st i n).2 := by
  rcases hm : modifyFirst
      (fun t => { t with completed := true, completed_at := some n })
      i st.tasks with ⟨r, ts'⟩
  cases r with
  | none => simpa only [complete_task, hm] using h
  | some u =>
    simp only [complete_task, hm]
    intro t ht
    have h5 := modifyFirst_mem
      (fun t => { t with completed := true, completed_at := some n })
      i st.tasks t (by rw [hm]; exact ht)
    rcases h5 with h1 | ⟨v, _, hv⟩
    · exact h t h1
    · subst hv
      simp [TaskCompOK]

lemma compInv_uncomplete (st : MState) (i : Nat) (h : compInv st) :
    compInv (uncomplete_task st i).2 := by
  rcases hm : modifyFirst
      (fun t => { t with completed := false, completed_at := none })
      i st.tasks with ⟨r, ts'⟩
  cases r with
  | none => simpa only [uncomplete_task, hm] using h
  | some u =>
    simp only [uncomplete_task, hm]
    intro t ht
    have h5 := modifyFirst_mem
      (fun t => { t with completed := false, completed_at := none })
      i st.tasks t (by rw [hm]; exact ht)
    rcases h5 with h1 | ⟨v, _, hv⟩
    · exact h t h1
    · subst hv
      simp [TaskCompOK]

lemma TaskCompOK_applyUpdates (a b c : Option String) (t : Task)
    (h : TaskCompOK t) : TaskCompOK (applyUpdates a b c t) := by
  rw [TaskCompOK, applyUpdates_completed, applyUpdates_completed_at]
  exact h

lemma compInv_update (st : MState) (i : Nat) (a b c : Option String)
    (h : compInv st) : compInv (update_task st i a b c).2 := by
  rcases hm : modifyFirst (applyUpdates a b c) i st.tasks with ⟨r, ts'⟩
  cases r with
  | none => simpa only [update_task, hm] using h
  | some u =>
    simp only [update_task, hm]
    intro t ht
    have h5 := modifyFirst_mem (applyUpdates a b c) i st.tasks t
      (by rw [hm]; exact ht)
    rcases h5 with h1 | ⟨v, hv1, hv⟩
    · exact h t h1
    · exact hv ▸ TaskCompOK_applyUpdates a b c v (h v hv1)

lemma compInv_delete (st : MState) (i : Nat) (h : compInv st) :
    compInv (delete_task st i).2 := by
  rcases hm : deleteFirst i st.tasks with _ | ts'
  · simpa only [delete_task, hm] using h
  · simp only [delete_task, hm]
    intro t ht
    exact h t (deleteFirst_mem i st.tasks ts' hm t ht)

lemma compInv_clear (st : MState) (h : compInv st) :
    compInv (clear_completed st).2 := by
  intro t ht
  have h4 : (clear_completed st).2.tasks =
      st.tasks.filter (fun t => !t.completed) := rfl
  rw [h4] at ht
  exact h t (List.mem_of_mem_filter ht)

/-- C5. In every state reachable from an empty collection, each task's
`completed` flag is true exactly when its `completed_at` stamp is present,
and each of the six mutating operations preserves this invariant. -/
theorem completed_iff_timestamp :
    (∀ st, Reachable st → compInv st) ∧
    (∀ (st : MState) (title priority description now : String),
      compInv st → compInv (add_task st title priority description now).2) ∧
    (∀ (st : MState) (i : Nat) (now : String),
      compInv st → compInv (complete_task st i now).2) ∧
    (∀ (st : MState) (i : Nat),
      compInv st → compInv (uncomplete_task st i).2) ∧
    (∀ (st : MState) (i : Nat) (a b c : Option String),
      compInv st → compInv (update_task st i a b c).2) ∧
    (∀ (st : MState) (i : Nat),
      compInv st → compInv (delete_task st i).2) ∧
    (∀ st : MState, compInv st → compInv (clear_completed st).2) := by
  refine ⟨?_, compInv_add, compInv_complete, compInv_uncomplete,
    compInv_update, compInv_delete, compInv_clear⟩
  intro st hst
  induction hst with
  | empty => intro t ht; simp [emptyState] at ht
  | add st ti pr de no _ ih => exact compInv_add st ti pr de no ih
  | complete st i n _ ih => exact compInv_complete st i n ih
  | uncomplete st i _ ih => exact compInv_uncomplete st i ih
  | update st i a b c _ ih => exact compInv_update st i a b c ih
  | delete st i _ ih => exact compInv_delete st i ih
  | clear st _ ih => exact compInv_clear st ih

/-- Witness for C5 at the reachable state add, then complete 1. -/
theorem completed_iff_timestamp_witness :
    compInv (complete_task (add_task emptyState "a" "high" "" "t1").2 1 "t2").2 :=
  completed_iff_timestamp.1 _
    (Reachable.complete _ 1 "t2"
      (Reachable.add emptyState "a" "high" "" "t1" Reachable.empty))

/-! Preservation of the priority invariant, and the stats sum. -/

lemma normalizePriority_mem (p : String) : normalizePriority p ∈ PRIORITIES := by
  rw [normalizePriority]
  split_ifs with h
  · exact h
  · simp [PRIORITIES]

lemma prioInv_add (st : MState) (ti pr de no : String) (h : prioInv st) :
    prioInv (add_task st ti pr de no).2 := by
  intro t ht
  have h4 : (add_task st ti pr de no).2.tasks =
      st.tasks ++ [(add_task st ti pr de no).1] := rfl
  rw [h4, List.mem_append, List.mem_singleton] at ht
  rcases ht with h1 | h2
  · exact h t h1
  · subst h2
    exact normalizePriority_mem pr

lemma prioInv_complete (st : MState) (i : Nat) (n : String) (h : prioInv st) :
    prioInv (complete_task st i n).2 := by
  rcases hm : modifyFirst
      (fun t => { t with completed := true, completed_at := some n })
      i st.tasks with ⟨r, ts'⟩
  cases r with
  | none => simpa only [complete_task, hm] using h
  | some u =>
    simp only [complete_task, hm]
    intro t ht
    have h5 := modifyFirst_mem
      (fun t => { t with completed := true, completed_at := some n })
      i st.tasks t (by rw [hm]; exact ht)
    rcases h5 with h1 | ⟨v, hv1, hv⟩
    · exact h t h1
    · exact hv ▸ h v hv1

lemma prioInv_uncomplete (st : MState) (i : Nat) (h : prioInv st) :
    prioInv (uncomplete_task st i).2 := by
  rcases hm : modifyFirst
      (fun t => { t with completed := false, completed_at := none })
      i st.tasks with ⟨r, ts'⟩
  cases r with
  | none => simpa only [uncomplete_task, hm] using h
  | some u =>
    simp only [uncomplete_task, hm]
    intro t ht
    have h5 := modifyFirst_mem
      (fun t => { t with completed := false, completed_at := none })
      i st.tasks t (by rw [hm]; exact ht)
    rcases h5 with h1 | ⟨v, hv1, hv⟩
    · exact h t h1
    · exact hv ▸ h v hv1

lemma prioInv_update (st : MState) (i : Nat) (a b c : Option String)
    (h : prioInv st) : prioInv (update_task st i a b c).2 := by
  rcases hm : modifyFirst (applyUpdates a b c) i st.tasks with ⟨r, ts'⟩
  cases r with
  | none => simpa only [update_task, hm] using h
  | some u =>
    simp only [update_task, hm]
    intro t ht
    have h5 := modifyFirst_mem (applyUpdates a b c) i st.tasks t
      (by rw [hm]; exact ht)
    rcases h5 with h1 | ⟨v, hv1, hv⟩
    · exact h t h1
    · rcases applyUpdates_priority a b c v with h6 | h6
      · rw [hv, h6]
        exact h v hv1
      · rw [hv]
        exact h6

lemma prioInv_delete (st : MState) (i : Nat) (h : prioInv st) :
    prioInv (delete_task st i).2 := by
  rcases hm : deleteFirst i st.tasks with _ | ts'
  · simpa only [delete_task, hm] using h
  · simp only [delete_task, hm]
    intro t ht
    exact h t (deleteFirst_mem i st.tasks ts' hm t ht)

lemma prioInv_clear (st : MState) (h : prioInv st) :
    prioInv (clear_completed st).2 := by
  intro t ht
  have h4 : (clear_completed st).2.tasks =
      st.tasks.filter (fun t => !t.completed) := rfl
  rw [h4] at ht
  exact h t (List.mem_of_mem_filter ht)

lemma countP_priority_sum (ts : List Task)
    (h : ∀ t ∈ ts, t.priority ∈ PRIORITIES) :
    ts.countP (fun t => !t.completed && t.priority == "high") +
      ts.countP (fun t => !t.completed && t.priority == "medium") +
      ts.countP (fun t => !t.completed && t.priority == "low") =
      ts.length - ts.countP (fun t => t.completed) := by
  induction ts with
  | nil => rfl
  | cons t ts ih =>
    have ht := h t (List.mem_cons_self t ts)
    have hts := ih fun u hu => h u (List.mem_cons_of_mem _ hu)
    have hcle := List.countP_le_length (fun t => t.completed) (l := ts)
    simp only [PRIORITIES, List.mem_cons, List.not_mem_nil, or_false] at ht
    simp only [List.countP_cons, List.length_cons]
    cases hc : t.completed <;> rcases ht with h1 | h1 | h1 <;>
      simp [h1, hc] <;> omega

lemma stats_priority_sum (ts : List Task)
    (h : ∀ t ∈ ts, t.priority ∈ PRIORITIES) :
    (get_stats ts).high_priority + (get_stats ts).medium_priority +
      (get_stats ts).low_priority = (get_stats ts).pending := by
  have hc := countP_priority_sum ts h
  simp only [get_stats, statsLoop_foldl, Nat.zero_add]
  exact hc

/-- C10. In every reachable manager state each stored priority is exactly
one of "high", "medium", "low", and consequently the three per-priority
counters of `get_stats` sum to its pending count. -/
theorem priority_always_recognized :
    (∀ st, Reachable st → prioInv st) ∧
    (∀ st, Reachable st →
      (get_stats st.tasks).high_priority +
        (get_stats st.tasks).medium_priority +
        (get_stats st.tasks).low_priority = (get_stats st.tasks).pending) := by
  have hinv : ∀ st, Reachable st → prioInv st := by
    intro st hst
    induction hst with
    | empty => intro t ht; simp [emptyState] at ht
    | add st ti pr de no _ ih => exact prioInv_add st ti pr de no ih
    | complete st i n _ ih => exact prioInv_complete st i n ih
    | uncomplete st i _ ih => exact prioInv_uncomplete st i ih
    | update st i a b c _ ih => exact prioInv_update st i a b c ih
    | delete st i _ ih => exact prioInv_delete st i ih
    | clear st _ ih => exact prioInv_clear st ih
  exact ⟨hinv, fun st hst => stats_priority_sum st.tasks (hinv st hst)⟩

/-- Witness for C10 at the reachable state reached by one add with an
unrecognized priority argument. -/
theorem priority_always_recognized_witness :
    prioInv (add_task emptyState "a" "Bogus" "" "t1").2 ∧
    (get_stats (add_task emptyState "a" "Bogus" "" "t1").2.tasks).high_priority +
      (get_stats (add_task emptyState "a" "Bogus" "" "t1").2.tasks).medium_priority +
      (get_stats (add_task emptyState "a" "Bogus" "" "t1").2.tasks).low_priority =
      (get_stats (add_task emptyState "a" "Bogus" "" "t1").2.tasks).pending :=
  ⟨priority_always_recognized.1 _
      (Reachable.add emptyState "a" "Bogus" "" "t1" Reachable.empty),
    priority_always_recognized.2 _
      (Reachable.add emptyState "a" "Bogus" "" "t1" Reachable.empty)⟩

end TaskTracker
